import Mathlib

/-!
Verification development for the proto2json tool (src/main.go).

The file shallowly embeds the parts of the program that the verified
properties are about:

* the byte normalizer inside parseData (lines 77-92), including Go's
  encoding/hex Decode behaviour and the out-of-bounds accesses on short
  inputs;
* the dynamic decoder flattening convertToMap (lines 40-61) over a model
  of protoreflect dynamic messages;
* the descriptor-registry loader registerPbFile (lines 22-38), with the
  external protobuf library calls abstracted as outcome parameters;
* FileWriter.Write (lines 128-139), with the two underlying file writes
  abstracted as outcome parameters;
* the CSV record source ReadData (lines 149-176) over already-split rows;
* the startup sequence of main (lines 178-291) as an event trace; and
* the producer/worker pipeline of main as a nondeterministic
  interleaving of per-worker output sequences.

Go machine integers that occur here (lengths, line counters, the worker
count) stay far from any overflow boundary in every statement below, so
they are modelled as Nat / Int directly.
-/

namespace ProtoToJson

/-! ### Byte normalizer (parseData, src/main.go lines 77-92) -/

/-- Decoding of one hex digit, as in Go encoding/hex fromHexChar:
digits, lowercase a-f, uppercase A-F. -/
def fromHexChar (c : Char) : Option Nat :=
  if '0' ≤ c ∧ c ≤ '9' then some (c.toNat - '0'.toNat)
  else if 'a' ≤ c ∧ c ≤ 'f' then some (c.toNat - 'a'.toNat + 10)
  else if 'A' ≤ c ∧ c ≤ 'F' then some (c.toNat - 'A'.toNat + 10)
  else none

/-- Errors produced by Go encoding/hex Decode: an invalid byte, or an
odd-length source (hex.ErrLength). -/
inductive HexError where
  | invalidByte (c : Char)
  | errLength
  deriving DecidableEq

/-- Go encoding/hex Decode over the source characters: decodes complete
digit pairs left to right into bytes; on the first invalid digit it stops
with invalidByte; a dangling final digit yields errLength (checking that
digit's validity first, as the Go code does).  Returns the decoded prefix
together with the error, mirroring Go's (n, err) return. -/
def hexDecodeCore : List Char → List Nat × Option HexError
  | [] => ([], none)
  | [c] =>
    ([], some (match fromHexChar c with
               | some _ => HexError.errLength
               | none => HexError.invalidByte c))
  | p :: q :: rest =>
    match fromHexChar p with
    | none => ([], some (HexError.invalidByte p))
    | some a =>
      match fromHexChar q with
      | none => ([], some (HexError.invalidByte q))
      | some b => ((a * 16 + b) :: (hexDecodeCore rest).1, (hexDecodeCore rest).2)

/-- Outcome of the hex-normalization part of parseData.  ok carries the
bytes handed on to unmarshalProtoData; decodeError carries the pos and
len(data) values that parseData interpolates into its error message;
panicOOB marks an out-of-bounds index on data[0] or data[1]. -/
inductive NormalizeResult where
  | ok (bytes : List Nat)
  | decodeError (pos : Nat) (total : Nat)
  | panicOOB
  deriving DecidableEq

/-- One hex.Decode call as parseData uses it: success yields the decoded
bytes (the destination buffer sizes in parseData exactly fit the number of
complete pairs, so the buffer content equals the decoded prefix); an error
is reported with the byte count decoded so far and the total input length. -/
def runHex (src : List Char) (total : Nat) : NormalizeResult :=
  match hexDecodeCore src with
  | (bs, none) => NormalizeResult.ok bs
  | (bs, some _) => NormalizeResult.decodeError bs.length total

/-- Hex-normalization slice of parseData (src/main.go lines 77-90).
The Go code evaluates data[0] unconditionally, and data[1] only when
data[0] is the character zero (short-circuit of the marker test), so the
empty input and a one-character input starting with that character hit an
out-of-bounds index.  With the 0x / 0X marker the marker is skipped and
the rest is hex-decoded; otherwise the whole text is hex-decoded. -/
def parseData (data : List Char) : NormalizeResult :=
  match data with
  | [] => NormalizeResult.panicOOB
  | c0 :: rest =>
    if c0 = '0' then
      match rest with
      | [] => NormalizeResult.panicOOB
      | c1 :: rest2 =>
        if c1 = 'x' ∨ c1 = 'X' then runHex rest2 (rest2.length + 2)
        else runHex (c0 :: c1 :: rest2) (rest2.length + 2)
    else runHex (c0 :: rest) (rest.length + 1)

/-- Discriminator: did normalization succeed? -/
def isOk : NormalizeResult → Bool
  | NormalizeResult.ok _ => true
  | _ => false

/-- Number of bytes produced by a successful normalization (0 otherwise). -/
def okLength : NormalizeResult → Nat
  | NormalizeResult.ok bs => bs.length
  | _ => 0

/-- Discriminator: did normalization return the DecodeError error value? -/
def isDecodeError : NormalizeResult → Bool
  | NormalizeResult.decodeError _ _ => true
  | _ => false

/-- Discriminator: did normalization crash on an out-of-bounds index? -/
def isPanicOOB : NormalizeResult → Bool
  | NormalizeResult.panicOOB => true
  | _ => false

/-- Total input length cited by a DecodeError, if any. -/
def errTotal : NormalizeResult → Option Nat
  | NormalizeResult.decodeError _ total => some total
  | _ => none

/-! ### Dynamic decoder (convertToMap, src/main.go lines 40-61) -/

/-- A protoreflect field value stored in a parsed dynamicpb message:
a scalar (the floating-point kinds are irrelevant to every property here
and are omitted), or an embedded message, itself a mapping from field
name to stored values. -/
inductive ProtoVal : Type where
  | vint (i : Int)
  | vstr (s : String)
  | vbool (b : Bool)
  | vmsg (fields : List (String × List ProtoVal))

/-- A parsed dynamicpb message: the association of each populated field
name with its stored values, in wire order.  A singular field that is
populated stores exactly one value (the last wire occurrence, per the
protobuf merge rules applied by proto.Unmarshal); a repeated field stores
its elements in wire order. -/
abbrev DynMsg := List (String × List ProtoVal)

/-- The slice of a protoreflect FieldDescriptor that convertToMap
consults: field.Name() and field.IsList(). -/
structure FieldDescr where
  name : String
  isList : Bool
  deriving DecidableEq

/-- Lookup of a field's stored values in a parsed message. -/
def msgLookup : DynMsg → String → Option (List ProtoVal)
  | [], _ => none
  | (n, vs) :: rest, fieldName =>
    if n = fieldName then some vs else msgLookup rest fieldName

/-- msg.Has(field): a populated singular field is present; a repeated
field is present exactly when its element list is non-empty. -/
def hasField (m : DynMsg) (f : FieldDescr) : Bool :=
  match msgLookup m f.name with
  | none => false
  | some vs => if f.isList then !vs.isEmpty else true

/-- msg.Get(field) for a singular field: the stored value (the zero value
when absent, which convertToMap never observes because it tests Has
first). -/
def msgSingle (m : DynMsg) (f : FieldDescr) : ProtoVal :=
  match msgLookup m f.name with
  | some (v :: _) => v
  | _ => ProtoVal.vint 0

/-- msg.Get(field).List() for a repeated field: the stored elements in
wire order. -/
def msgList (m : DynMsg) (f : FieldDescr) : List ProtoVal :=
  match msgLookup m f.name with
  | some vs => vs
  | none => []

/-- A Go interface value as produced by convertToMap: a scalar, a raw
protoreflect message object (what Value.Interface() yields for a
message-kind field), a slice built for a repeated field, or a
map from string to value.  The last constructor is the shape of a
flattened Decoded Value; it is part of the type so that statements can
ask whether an emitted value is such a mapping. -/
inductive GoVal : Type where
  | gint (i : Int)
  | gstr (s : String)
  | gbool (b : Bool)
  | rawMessage (m : List (String × List ProtoVal))
  | glist (xs : List GoVal)
  | mapVal (entries : List (String × GoVal))

/-- protoreflect.Value.Interface(): scalars map to their Go values; a
message-kind value yields the raw message object, not a map. -/
def interfaceOf : ProtoVal → GoVal
  | ProtoVal.vint i => GoVal.gint i
  | ProtoVal.vstr s => GoVal.gstr s
  | ProtoVal.vbool b => GoVal.gbool b
  | ProtoVal.vmsg m => GoVal.rawMessage m

/-- The value convertToMap stores for one present field: for a repeated
field the slice of each element's Interface() in order, otherwise the
single value's Interface(). -/
def fieldValue (m : DynMsg) (f : FieldDescr) : GoVal :=
  if f.isList then GoVal.glist ((msgList m f).map interfaceOf)
  else interfaceOf (msgSingle m f)

/-- convertToMap (src/main.go lines 40-61): iterate the descriptor's
fields in declaration order, skip fields with Has false, and record
name-to-value entries for the present ones.  The Go map is modelled as
the association list of insertions in loop order. -/
def convertToMap : List FieldDescr → DynMsg → List (String × GoVal)
  | [], _ => []
  | f :: rest, m =>
    if hasField m f then (f.name, fieldValue m f) :: convertToMap rest m
    else convertToMap rest m

/-- Discriminator: is a produced value a mapping from field name to value
(a flattened Decoded Value)? -/
def isDecodedValue : GoVal → Bool
  | GoVal.mapVal _ => true
  | _ => false

/-! ### Descriptor registry (registerPbFile, src/main.go lines 22-38) -/

/-- One file entry of a deserialized FileDescriptorSet; only its identity
matters to the control flow modelled here. -/
structure FileDescrProto where
  filename : String

/-- Outcome of registerPbFile: an error return, the out-of-bounds panic
on set.GetFile()[0], or success. -/
inductive RegisterResult where
  | errReturned
  | panicIndex
  | ok
  deriving DecidableEq

/-- registerPbFile (src/main.go lines 22-38).  The external library calls
are abstracted by their outcomes: readOk for ioutil.ReadFile, parsed for
proto.Unmarshal into a FileDescriptorSet (none on unmarshal error, some
files on success), newFileOk for protodesc.NewFile, registerOk for
RegisterFile.  The Go code indexes set.GetFile()[0] without checking that
the set is non-empty, so a successfully parsed empty set panics. -/
def registerPbFile : Bool → Option (List FileDescrProto) → Bool → Bool → RegisterResult
  | false, _, _, _ => RegisterResult.errReturned
  | true, none, _, _ => RegisterResult.errReturned
  | true, some [], _, _ => RegisterResult.panicIndex
  | true, some (_ :: _), false, _ => RegisterResult.errReturned
  | true, some (_ :: _), true, false => RegisterResult.errReturned
  | true, some (_ :: _), true, true => RegisterResult.ok

/-- Discriminator: did registerPbFile return an error value (as opposed
to panicking or succeeding)? -/
def registerReturnsError : RegisterResult → Bool
  | RegisterResult.errReturned => true
  | _ => false

/-! ### File writer (FileWriter.Write, src/main.go lines 128-139) -/

/-- FileWriter.Write under the mutex (src/main.go lines 128-139), with
the two underlying file writes abstracted by their outcomes (some e is a
failure with error e, none is success).  The Go code returns err when the
record-byte write fails, but the branch for a failed newline write reads
return nil, so that failure is swallowed.  The newline write is attempted
only when the record write succeeded. -/
def FileWriterWrite (dataErr newlineErr : Option Nat) : Option Nat :=
  match dataErr with
  | some e => some e
  | none =>
    match newlineErr with
    | some _ => none
    | none => none

/-! ### Record source (ReadData, src/main.go lines 149-176) -/

/-- The Data struct: a 1-based line number and the mapping from the
configured field names to that row's column values. -/
structure DataRec where
  line : Nat
  data : List (String × String)
  deriving DecidableEq

/-- Construction of one Data value from a row: field k is bound to column
k; columns beyond the field list are ignored. -/
def rowToRec (fields : List String) (count : Nat) (row : List String) : DataRec :=
  { line := count, data := fields.zip row }

/-- ReadData (src/main.go lines 149-176) over already-split CSV rows: the
running 1-based counter is incremented per row; a row with fewer columns
than fields aborts the whole stream with the current line number and
produces nothing further; otherwise a Data record is emitted (sent to the
channel) and reading continues.  The result is the list of emitted
records together with the error line, if any. -/
def ReadData (fields : List String) : Nat → List (List String) → List DataRec × Option Nat
  | _, [] => ([], none)
  | count, row :: rest =>
    if row.length < fields.length then ([], some (count + 1))
    else
      ((rowToRec fields (count + 1) row) :: (ReadData fields (count + 1) rest).1,
       (ReadData fields (count + 1) rest).2)

/-! ### Startup sequence of main (src/main.go lines 178-291) -/

/-- Result of the field-name loop in main (lines 203-215): the payload
field was found; an empty field name was hit before finding it (panic);
or the list was exhausted without finding it (panic).  The loop checks
the payload-field match before the emptiness test and breaks on a match,
exactly as the Go loop does. -/
inductive FieldsCheckResult where
  | found
  | emptyPanic
  | notFound
  deriving DecidableEq

/-- The field-name loop of main (src/main.go lines 203-212). -/
def fieldsCheck (dataField : String) : List String → FieldsCheckResult
  | [] => FieldsCheckResult.notFound
  | v :: rest =>
    if v = dataField then FieldsCheckResult.found
    else if v.length = 0 then FieldsCheckResult.emptyPanic
    else fieldsCheck dataField rest

/-- Observable startup events of main, in program order: configuration
panics, the schema-container file read performed by registerPbFile, the
bounded channel creation with its capacity, the destination-file open of
the file writer, and the start of the producer/worker pipeline. -/
inductive InitEvent where
  | panicEmptyField
  | panicNoDataField
  | readSchemaFile
  | panicSchemaError
  | panicWorkerCount
  | chanCreated (capacity : Int)
  | openDstFile
  | panicOpenDst
  | panicBadWriter
  | panicBadMarshaler
  | pipelineRun
  deriving DecidableEq

/-- The configuration main runs under, with the outcomes of the two
external effects (schema load, destination-file open) abstracted. -/
structure MainConfig where
  fields : List String
  dataField : String
  receiverNum : Int
  schemaOk : Bool
  writerName : String
  openDstOk : Bool
  marshalerName : String

/-- Marshaler selection (src/main.go lines 242-246). -/
def marshalerEvents (cfg : MainConfig) : List InitEvent :=
  if cfg.marshalerName = "json" then [InitEvent.pipelineRun]
  else [InitEvent.panicBadMarshaler]

/-- Writer selection (src/main.go lines 230-240); the file writer opens
the destination file before the marshaler is selected. -/
def writerEvents (cfg : MainConfig) : List InitEvent :=
  if cfg.writerName = "console" then marshalerEvents cfg
  else if cfg.writerName = "file" then
    InitEvent.openDstFile ::
      (if cfg.openDstOk then marshalerEvents cfg else [InitEvent.panicOpenDst])
  else [InitEvent.panicBadWriter]

/-- Startup continuation after the field-name loop, in the order the Go
code executes: registerPbFile (which reads the schema file) at line 217,
the worker-count check at line 221, channel creation with capacity
receiverNum*2 at line 224, then writer and marshaler selection. -/
def mainAfterFields (cfg : MainConfig) : FieldsCheckResult → List InitEvent
  | FieldsCheckResult.emptyPanic => [InitEvent.panicEmptyField]
  | FieldsCheckResult.notFound => [InitEvent.panicNoDataField]
  | FieldsCheckResult.found =>
    InitEvent.readSchemaFile ::
      (if cfg.schemaOk then
        (if cfg.receiverNum ≤ 0 then [InitEvent.panicWorkerCount]
         else InitEvent.chanCreated (cfg.receiverNum * 2) :: writerEvents cfg)
       else [InitEvent.panicSchemaError])

/-- The event trace of main's startup (src/main.go lines 178-246). -/
def mainInitTrace (cfg : MainConfig) : List InitEvent :=
  mainAfterFields cfg (fieldsCheck cfg.dataField cfg.fields)

/-! ### Producer/worker pipeline of main (src/main.go lines 248-291) -/

/-- Interleaving of several sequences: out is obtained by repeatedly
removing the head of one of the sequences.  This is the set of output
orders the shared sink can observe when each worker writes its own
outputs in order but workers race against each other. -/
inductive Interleaving {α : Type} : List (List α) → List α → Prop where
  | done (ls : List (List α)) (h : ∀ l ∈ ls, l = []) : Interleaving ls []
  | step (ls : List (List α)) (w : Nat) (x : α) (l : List α) (out : List α)
      (hget : ls[w]? = some (x :: l)) (htail : Interleaving (ls.set w l) out) :
      Interleaving ls (x :: out)

/-- The per-worker output sequences of the pipeline: the producer
enqueues the records in order into the FIFO channel; sched assigns to
each record (by position) the worker that dequeues it; each worker
processes its records in dequeue order and, absent any fatal error,
writes exactly one output line per record.  Output lines are identified
with the records they serialize. -/
def pipelineWorkerOutputs (records : List DataRec) (sched : List Nat) (workerCount : Nat) :
    List (List DataRec) :=
  (List.range workerCount).map
    (fun w => (records.zip sched).filterMap
      (fun p => if p.2 = w then some p.1 else none))

/-! ### Concrete instances used by individual properties -/

/-- Descriptor with one singular message-kind field, named inner. -/
def c1Descr : List FieldDescr := [{ name := "inner", isList := false }]

/-- The embedded message stored in the inner field. -/
def c1Inner : List (String × List ProtoVal) := [("x", [ProtoVal.vint 5])]

/-- A parsed message whose inner field is populated with c1Inner. -/
def c1Msg : DynMsg := [("inner", [ProtoVal.vmsg c1Inner])]

/-- Descriptor with two singular fields and one repeated field. -/
def c2Descr : List FieldDescr :=
  [{ name := "name", isList := false },
   { name := "age", isList := false },
   { name := "tags", isList := true }]

/-- A parsed message populating name and tags but not age. -/
def c2Msg : DynMsg :=
  [("name", [ProtoVal.vstr "Alice"]),
   ("tags", [ProtoVal.vint 1, ProtoVal.vint 2])]

/-- A configuration whose only invalidity is a zero worker count. -/
def c4Cfg : MainConfig :=
  { fields := ["data"], dataField := "data", receiverNum := 0, schemaOk := true,
    writerName := "console", openDstOk := true, marshalerName := "json" }

/-- A configuration whose field list misses the payload field. -/
def c4CfgMissing : MainConfig :=
  { fields := ["id"], dataField := "data", receiverNum := 4, schemaOk := true,
    writerName := "console", openDstOk := true, marshalerName := "json" }

/-- A fully valid configuration with three workers. -/
def c7Cfg : MainConfig :=
  { fields := ["id", "data"], dataField := "data", receiverNum := 3, schemaOk := true,
    writerName := "console", openDstOk := true, marshalerName := "json" }

/-- First record of the two-record pipeline run. -/
def pipeRec1 : DataRec := { line := 1, data := [("data", "08")] }

/-- Second record of the two-record pipeline run. -/
def pipeRec2 : DataRec := { line := 2, data := [("data", "10")] }

/-- Two-step structural induction over lists, matching the recursion
pattern of hexDecodeCore. -/
def pairInduction {α : Type} {P : List α → Prop} (h0 : P []) (h1 : ∀ c, P [c])
    (h2 : ∀ p q rest, P rest → P (p :: q :: rest)) : ∀ l, P l
  | [] => h0
  | [c] => h1 c
  | p :: q :: rest => h2 p q rest (pairInduction h0 h1 h2 rest)

/-! ### Hex decoding lemmas -/

/-- On an even-length source of valid hex digits, hexDecodeCore succeeds
and produces one byte per digit pair. -/
theorem hexDecodeCore_even (l : List Char) (he : l.length % 2 = 0)
    (hv : ∀ c ∈ l, (fromHexChar c).isSome = true) :
    (hexDecodeCore l).2 = none ∧ (hexDecodeCore l).1.length = l.length / 2 := by
  revert he hv
  induction l using pairInduction with
  | h0 => intro he hv; simp [hexDecodeCore]
  | h1 c => intro he hv; simp at he
  | h2 p q rest ih =>
    intro he hv
    have hp := hv p (by simp)
    have hq := hv q (by simp)
    rcases Option.isSome_iff_exists.mp hp with ⟨a, ha⟩
    rcases Option.isSome_iff_exists.mp hq with ⟨b, hb⟩
    have he2 : rest.length % 2 = 0 := by
      simp only [List.length_cons] at he; omega
    have ih2 := ih he2 (fun c hc => hv c (by simp [hc]))
    refine ⟨?_, ?_⟩
    · simp [hexDecodeCore, ha, hb, ih2.1]
    · simp only [hexDecodeCore, ha, hb, List.length_cons, ih2.2]
      omega

/-- On an odd-length source, hexDecodeCore reports an error. -/
theorem hexDecodeCore_odd (l : List Char) (ho : l.length % 2 = 1) :
    (hexDecodeCore l).2.isSome = true := by
  revert ho
  induction l using pairInduction with
  | h0 => intro ho; simp at ho
  | h1 c => intro ho; cases h : fromHexChar c <;> simp [hexDecodeCore, h]
  | h2 p q rest ih =>
    intro ho
    have ho2 : rest.length % 2 = 1 := by
      simp only [List.length_cons] at ho; omega
    cases hp : fromHexChar p with
    | none => simp [hexDecodeCore, hp]
    | some a =>
      cases hq : fromHexChar q with
      | none => simp [hexDecodeCore, hp, hq]
      | some b => simpa [hexDecodeCore, hp, hq] using ih ho2

/-- On even-length valid input, runHex succeeds with one byte per pair. -/
theorem runHex_even (src : List Char) (total : Nat) (he : src.length % 2 = 0)
    (hv : ∀ c ∈ src, (fromHexChar c).isSome = true) :
    isOk (runHex src total) = true ∧ okLength (runHex src total) = src.length / 2 := by
  have h := hexDecodeCore_even src he hv
  rcases hE : hexDecodeCore src with ⟨bs, e⟩
  rw [hE] at h
  rcases h with ⟨h1, h2⟩
  simp only at h1 h2
  subst h1
  simp [runHex, hE, isOk, okLength, h2]

/-- On odd-length input, runHex reports a DecodeError citing the total
input length. -/
theorem runHex_odd (src : List Char) (total : Nat) (ho : src.length % 2 = 1) :
    isDecodeError (runHex src total) = true ∧ errTotal (runHex src total) = some total := by
  have h := hexDecodeCore_odd src ho
  rcases hE : hexDecodeCore src with ⟨bs, e⟩
  rw [hE] at h
  cases e with
  | none => simp at h
  | some err => simp [runHex, hE, isDecodeError, errTotal]

/-! ### Claim C3 -/

/-- Claim C3 counterexample: the one-character payload text consisting of
the single character zero has odd length, yet parseData does not return a
DecodeError for it: the marker test reads data[1] out of bounds and the
call crashes.  This falsifies the claim's clause that every odd-length
remainder fails with an error return rather than a crash. -/
theorem C3_counterexample :
    parseData ['0'] = NormalizeResult.panicOOB
    ∧ isDecodeError (parseData ['0']) = false := by
  exact ⟨rfl, rfl⟩

/-- Claim C3 (amended to payload texts of length at least two, the domain
on which parseData is total; see C9 for the shorter inputs): with a radix
marker and even total length, normalization returns exactly
length/2 - 1 bytes; without a marker and with even length it returns
exactly length/2 bytes (both for texts of hex digits); and every
odd-length text of length at least two fails with a DecodeError citing
the total length, never a crash. -/
theorem C3_prop (c0 c1 : Char) (rest : List Char) :
    (c0 = '0' → (c1 = 'x' ∨ c1 = 'X') → (rest.length + 2) % 2 = 0 →
       (∀ c ∈ rest, (fromHexChar c).isSome = true) →
       isOk (parseData (c0 :: c1 :: rest)) = true
       ∧ okLength (parseData (c0 :: c1 :: rest)) = (rest.length + 2) / 2 - 1)
    ∧ (¬(c0 = '0' ∧ (c1 = 'x' ∨ c1 = 'X')) → (rest.length + 2) % 2 = 0 →
       (∀ c ∈ c0 :: c1 :: rest, (fromHexChar c).isSome = true) →
       isOk (parseData (c0 :: c1 :: rest)) = true
       ∧ okLength (parseData (c0 :: c1 :: rest)) = (rest.length + 2) / 2)
    ∧ ((rest.length + 2) % 2 = 1 →
       isDecodeError (parseData (c0 :: c1 :: rest)) = true
       ∧ errTotal (parseData (c0 :: c1 :: rest)) = some (rest.length + 2)) := by
  refine ⟨?_, ?_, ?_⟩
  · intro h0 hmk he hv
    have hre : rest.length % 2 = 0 := by omega
    have h := runHex_even rest (rest.length + 2) hre hv
    have hpd : parseData (c0 :: c1 :: rest) = runHex rest (rest.length + 2) := by
      simp [parseData, h0, hmk]
    rw [hpd]
    refine ⟨h.1, ?_⟩
    rw [h.2]; omega
  · intro hnm he hv
    have hlen : (c0 :: c1 :: rest).length % 2 = 0 := by
      simp only [List.length_cons]; omega
    have h := runHex_even (c0 :: c1 :: rest) (rest.length + 2) hlen hv
    have hpd : parseData (c0 :: c1 :: rest) = runHex (c0 :: c1 :: rest) (rest.length + 2) := by
      by_cases h0 : c0 = '0'
      · have hmk : ¬(c1 = 'x' ∨ c1 = 'X') := fun hm => hnm ⟨h0, hm⟩
        simp [parseData, h0, hmk]
      · simp [parseData, h0]
    rw [hpd]
    refine ⟨h.1, ?_⟩
    rw [h.2]
    simp only [List.length_cons]
  · intro ho
    by_cases h0 : c0 = '0'
    · by_cases hmk : c1 = 'x' ∨ c1 = 'X'
      · have hro : rest.length % 2 = 1 := by omega
        have h := runHex_odd rest (rest.length + 2) hro
        have hpd : parseData (c0 :: c1 :: rest) = runHex rest (rest.length + 2) := by
          simp [parseData, h0, hmk]
        rw [hpd]; exact h
      · have hlo : (c0 :: c1 :: rest).length % 2 = 1 := by
          simp only [List.length_cons]; omega
        have h := runHex_odd (c0 :: c1 :: rest) (rest.length + 2) hlo
        have hpd : parseData (c0 :: c1 :: rest) = runHex (c0 :: c1 :: rest) (rest.length + 2) := by
          simp [parseData, h0, hmk]
        rw [hpd]; exact h
    · have hlo : (c0 :: c1 :: rest).length % 2 = 1 := by
        simp only [List.length_cons]; omega
      have h := runHex_odd (c0 :: c1 :: rest) (rest.length + 2) hlo
      have hpd : parseData (c0 :: c1 :: rest) = runHex (c0 :: c1 :: rest) (rest.length + 2) := by
        simp [parseData, h0]
      rw [hpd]; exact h

/-- Claim C3 witness: the marker clause evaluated on the text 0xAB (one
byte out), and the odd-length clause evaluated on the text 0xABC. -/
theorem C3_witness :
    (isOk (parseData ['0', 'x', 'A', 'B']) = true
     ∧ okLength (parseData ['0', 'x', 'A', 'B']) = 1)
    ∧ (isDecodeError (parseData ['0', 'x', 'A', 'B', 'C']) = true
       ∧ errTotal (parseData ['0', 'x', 'A', 'B', 'C']) = some 5) := by
  constructor
  · exact (C3_prop '0' 'x' ['A', 'B']).1 rfl (Or.inl rfl) (by decide) (by decide)
  · exact (C3_prop '0' 'x' ['A', 'B', 'C']).2.2 (by decide)

/-! ### Claim C9 -/

/-- Claim C9 counterexample: the payload text consisting of the single
character A has length 1, yet the call is not a crash: the marker test
short-circuits after data[0], and hex.Decode returns the odd-length
error, so parseData returns a DecodeError.  This falsifies the claim that
every text of length 0 or 1 hits an out-of-bounds access. -/
theorem C9_counterexample :
    parseData ['A'] = NormalizeResult.decodeError 0 1
    ∧ isPanicOOB (parseData ['A']) = false := by
  exact ⟨rfl, rfl⟩

/-- Claim C9 (amended): parseData reads data[0] unconditionally, so the
empty text always crashes out of bounds; for a one-character text, data[1]
is read (and crashes) exactly when the character is the digit zero,
because the marker test short-circuits otherwise; every other
one-character text returns a DecodeError citing position 0 and length 1. -/
theorem C9_prop (c : Char) :
    parseData ([] : List Char) = NormalizeResult.panicOOB
    ∧ (c = '0' → parseData [c] = NormalizeResult.panicOOB)
    ∧ (c ≠ '0' → parseData [c] = NormalizeResult.decodeError 0 1) := by
  refine ⟨rfl, ?_, ?_⟩
  · intro h; subst h; rfl
  · intro h
    have hpd : parseData [c] = runHex [c] 1 := by simp [parseData, h]
    rw [hpd]
    cases hc : fromHexChar c <;> simp [runHex, hexDecodeCore, hc]

/-- Claim C9 witness: the amended claim evaluated at the empty text and
at the one-character text A. -/
theorem C9_witness :
    parseData ([] : List Char) = NormalizeResult.panicOOB
    ∧ parseData ['A'] = NormalizeResult.decodeError 0 1 := by
  exact ⟨(C9_prop 'A').1, (C9_prop 'A').2.2 (by decide)⟩

/-! ### Claim C1 -/

/-- Claim C1 counterexample: on a message whose singular message-kind
field inner is populated, convertToMap emits the raw un-flattened message
object for that field, not a mapping from field name to value.  This
falsifies the claim that nested message fields always decode to nested
Decoded Values via the same flattening algorithm. -/
theorem C1_counterexample :
    convertToMap c1Descr c1Msg = [("inner", GoVal.rawMessage c1Inner)]
    ∧ isDecodedValue (GoVal.rawMessage c1Inner) = false := by
  exact ⟨rfl, rfl⟩

/-- Claim C1 (amended): for every singular message-kind field present in
the parsed message, convertToMap emits the raw message object returned by
Value.Interface() for that field; the flattening algorithm is not applied
recursively, so the emitted value is never a mapping from field name to
value. -/
theorem C1_prop (d : List FieldDescr) (m : DynMsg) (f : FieldDescr)
    (inner : List (String × List ProtoVal))
    (hmem : f ∈ d) (hsing : f.isList = false)
    (hval : msgLookup m f.name = some [ProtoVal.vmsg inner]) :
    (f.name, GoVal.rawMessage inner) ∈ convertToMap d m
    ∧ isDecodedValue (GoVal.rawMessage inner) = false := by
  refine ⟨?_, rfl⟩
  induction d with
  | nil => simp at hmem
  | cons g rest ih =>
    rcases List.mem_cons.mp hmem with h | h
    · subst h
      have hhas : hasField m f = true := by simp [hasField, hval, hsing]
      have hfv : fieldValue m f = GoVal.rawMessage inner := by
        simp [fieldValue, hsing, msgSingle, hval, interfaceOf]
      have hcv : convertToMap (f :: rest) m
          = (f.name, fieldValue m f) :: convertToMap rest m := by
        simp [convertToMap, hhas]
      rw [hcv, hfv]
      exact List.mem_cons_self _ _
    · cases hg : hasField m g with
      | false =>
        have hcv : convertToMap (g :: rest) m = convertToMap rest m := by
          simp [convertToMap, hg]
        rw [hcv]
        exact ih h
      | true =>
        have hcv : convertToMap (g :: rest) m
            = (g.name, fieldValue m g) :: convertToMap rest m := by
          simp [convertToMap, hg]
        rw [hcv]
        exact List.mem_cons_of_mem _ (ih h)

/-- Claim C1 witness: the amended claim evaluated on the concrete
descriptor and message of the counterexample. -/
theorem C1_witness :
    ("inner", GoVal.rawMessage c1Inner) ∈ convertToMap c1Descr c1Msg
    ∧ isDecodedValue (GoVal.rawMessage c1Inner) = false := by
  exact C1_prop c1Descr c1Msg { name := "inner", isList := false } c1Inner
    (by decide) rfl rfl

/-! ### Claim C2 -/

/-- Claim C2: the keys of the flattened mapping are exactly the names of
the descriptor fields present in the parsed message, in declaration
order — fields absent from the wire data never appear, with no null
placeholders — and every present repeated field is emitted as the ordered
sequence of its elements' values in wire (storage) order. -/
theorem C2_prop (d : List FieldDescr) (m : DynMsg) :
    (convertToMap d m).map Prod.fst
      = (d.filter (fun f => hasField m f)).map FieldDescr.name
    ∧ ∀ f, f ∈ d → f.isList = true → hasField m f = true →
        (f.name, GoVal.glist ((msgList m f).map interfaceOf)) ∈ convertToMap d m := by
  constructor
  · induction d with
    | nil => rfl
    | cons f rest ih =>
      cases hf : hasField m f with
      | false => simpa [convertToMap, hf, List.filter_cons] using ih
      | true => simpa [convertToMap, hf, List.filter_cons] using ih
  · intro f hmem hlist hhas
    induction d with
    | nil => simp at hmem
    | cons g rest ih =>
      rcases List.mem_cons.mp hmem with h | h
      · subst h
        have hfv : fieldValue m f = GoVal.glist ((msgList m f).map interfaceOf) := by
          simp [fieldValue, hlist]
        have hcv : convertToMap (f :: rest) m
            = (f.name, fieldValue m f) :: convertToMap rest m := by
          simp [convertToMap, hhas]
        rw [hcv, hfv]
        exact List.mem_cons_self _ _
      · cases hg : hasField m g with
        | false =>
          have hcv : convertToMap (g :: rest) m = convertToMap rest m := by
            simp [convertToMap, hg]
          rw [hcv]
          exact ih h
        | true =>
          have hcv : convertToMap (g :: rest) m
              = (g.name, fieldValue m g) :: convertToMap rest m := by
            simp [convertToMap, hg]
          rw [hcv]
          exact List.mem_cons_of_mem _ (ih h)

/-- Claim C2 witness: on a message populating the name and tags fields
but not age, the key list is exactly name, tags (age emitted nowhere, no
placeholder), and the repeated tags field keeps its stored order. -/
theorem C2_witness :
    (convertToMap c2Descr c2Msg).map Prod.fst = ["name", "tags"]
    ∧ ("tags", GoVal.glist [GoVal.gint 1, GoVal.gint 2]) ∈ convertToMap c2Descr c2Msg := by
  constructor
  · exact ((C2_prop c2Descr c2Msg).1).trans (by decide)
  · exact (C2_prop c2Descr c2Msg).2 { name := "tags", isList := true }
      (by decide) rfl rfl

/-! ### Claim C4 -/

/-- Claim C4 counterexample: under a configuration whose only invalidity
is a zero worker count, the startup trace reads the schema-container file
before the worker-count panic, because main checks receiverNum only after
registerPbFile has run.  This falsifies the claim that every ConfigError
condition is fatal before any I/O. -/
theorem C4_counterexample :
    mainInitTrace c4Cfg = [InitEvent.readSchemaFile, InitEvent.panicWorkerCount]
    ∧ (mainInitTrace c4Cfg).head? = some InitEvent.readSchemaFile := by
  exact ⟨rfl, rfl⟩

/-- Claim C4 (amended): a field list without the payload field (or with
an empty name encountered before it) is fatal before any I/O — the trace
is a single configuration panic and contains neither the schema read nor
the destination open — but a non-positive worker count, while fatal, is
detected only after the schema-container file has been read. -/
theorem C4_prop (cfg : MainConfig) :
    (fieldsCheck cfg.dataField cfg.fields ≠ FieldsCheckResult.found →
       InitEvent.readSchemaFile ∉ mainInitTrace cfg
       ∧ InitEvent.openDstFile ∉ mainInitTrace cfg
       ∧ (mainInitTrace cfg = [InitEvent.panicEmptyField]
          ∨ mainInitTrace cfg = [InitEvent.panicNoDataField]))
    ∧ (fieldsCheck cfg.dataField cfg.fields = FieldsCheckResult.found →
       cfg.schemaOk = true → cfg.receiverNum ≤ 0 →
       mainInitTrace cfg = [InitEvent.readSchemaFile, InitEvent.panicWorkerCount]) := by
  constructor
  · intro hne
    cases h : fieldsCheck cfg.dataField cfg.fields with
    | found => exact absurd h hne
    | emptyPanic =>
      refine ⟨?_, ?_, Or.inl ?_⟩ <;> simp [mainInitTrace, h, mainAfterFields]
    | notFound =>
      refine ⟨?_, ?_, Or.inr ?_⟩ <;> simp [mainInitTrace, h, mainAfterFields]
  · intro hf hs hw
    simp [mainInitTrace, hf, mainAfterFields, hs, hw]

/-- Claim C4 witness: the amended claim evaluated on a configuration
missing the payload field (no I/O at all) and on the zero-worker
configuration (schema read happens first). -/
theorem C4_witness :
    (InitEvent.readSchemaFile ∉ mainInitTrace c4CfgMissing
     ∧ InitEvent.openDstFile ∉ mainInitTrace c4CfgMissing
     ∧ (mainInitTrace c4CfgMissing = [InitEvent.panicEmptyField]
        ∨ mainInitTrace c4CfgMissing = [InitEvent.panicNoDataField]))
    ∧ mainInitTrace c4Cfg = [InitEvent.readSchemaFile, InitEvent.panicWorkerCount] := by
  exact ⟨(C4_prop c4CfgMissing).1 (by decide),
         (C4_prop c4Cfg).2 (by decide) rfl (by decide)⟩

/-! ### Claim C7 -/

/-- Claim C7: whenever startup reaches channel creation (payload field
found, schema loaded, positive worker count), the bounded record queue is
created with capacity exactly twice the worker count. -/
theorem C7_prop (cfg : MainConfig)
    (hf : fieldsCheck cfg.dataField cfg.fields = FieldsCheckResult.found)
    (hs : cfg.schemaOk = true) (hw : 1 ≤ cfg.receiverNum) :
    InitEvent.chanCreated (2 * cfg.receiverNum) ∈ mainInitTrace cfg := by
  have hnot : ¬cfg.receiverNum ≤ 0 := by omega
  have hmul : cfg.receiverNum * 2 = 2 * cfg.receiverNum := by ring
  simp [mainInitTrace, hf, mainAfterFields, hs, hnot, hmul]

/-- Claim C7 witness: with three workers the queue capacity is six. -/
theorem C7_witness : InitEvent.chanCreated 6 ∈ mainInitTrace c7Cfg := by
  exact C7_prop c7Cfg (by decide) rfl (by decide)

/-! ### Claim C5 -/

/-- Claim C5: FileWriter.Write propagates a failure of the record-byte
write, but the branch handling a failed newline write returns nil
(src/main.go line 135), so that failure is silently swallowed and can
never be escalated to fatal termination.  The first conjunct evaluates
the code at the failing input (record write succeeds, newline write
fails with error 1): the result is nil.  The second shows the contrast
on a failed record write, which is propagated. -/
theorem C5_prop :
    FileWriterWrite none (some 1) = none
    ∧ FileWriterWrite (some 2) none = some 2 := by
  exact ⟨rfl, rfl⟩

/-! ### Claim C10 -/

/-- Claim C10: when the schema file is readable and deserializes to a
valid descriptor set with zero file entries, registerPbFile panics on the
unchecked index set.GetFile()[0] instead of returning a SchemaError,
whatever the outcomes of the later library calls would have been. -/
theorem C10_prop (newFileOk registerOk : Bool) :
    registerPbFile true (some []) newFileOk registerOk = RegisterResult.panicIndex
    ∧ registerReturnsError (registerPbFile true (some []) newFileOk registerOk) = false := by
  exact ⟨rfl, rfl⟩

/-! ### Claim C6 -/

/-- ReadData with an arbitrary starting counter: if row j (0-based) is
the first short row, the stream aborts with line count + j + 1, exactly
one record was emitted per preceding row, and every emitted record's line
number is at most count + j. -/
theorem ReadData_short_aux :
    ∀ (rows : List (List String)) (fields : List String) (count j : Nat)
      (row : List String),
      rows[j]? = some row → row.length < fields.length →
      (∀ i r, i < j → rows[i]? = some r → fields.length ≤ r.length) →
      (ReadData fields count rows).2 = some (count + j + 1)
      ∧ (ReadData fields count rows).1.length = j
      ∧ ∀ d ∈ (ReadData fields count rows).1, d.line ≤ count + j := by
  intro rows
  induction rows with
  | nil => intro fields count j row hj; simp at hj
  | cons r rest ih =>
    intro fields count j row hj hshort hprev
    cases j with
    | zero =>
      simp only [List.getElem?_cons_zero, Option.some.injEq] at hj
      subst hj
      simp [ReadData, hshort]
    | succ jj =>
      have hr : fields.length ≤ r.length := hprev 0 r (by omega) (by simp)
      have hns : ¬r.length < fields.length := by omega
      have hj2 : rest[jj]? = some row := by simpa using hj
      have hprev2 : ∀ i rr, i < jj → rest[i]? = some rr → fields.length ≤ rr.length := by
        intro i rr hi hri
        exact hprev (i + 1) rr (by omega) (by simpa using hri)
      have ihh := ih fields (count + 1) jj row hj2 hshort hprev2
      refine ⟨?_, ?_, ?_⟩
      · simp only [ReadData, hns, if_false]
        rw [ihh.1]
        congr 1
        omega
      · simp only [ReadData, hns, if_false, List.length_cons]
        rw [ihh.2.1]
      · intro d hd
        simp only [ReadData, hns, if_false, List.mem_cons] at hd
        rcases hd with hd | hd
        · subst hd
          simp only [rowToRec]
          omega
        · have := ihh.2.2 d hd
          omega

/-- Claim C6: if some row supplies fewer columns than the field list (row
j, 0-based, the rows before it being long enough), ReadData fails with a
RecordError citing that row's 1-based position j + 1, emits exactly one
record per preceding row, and emits no record for the short row or any
later row (every emitted line number is at most j). -/
theorem C6_prop (fields : List String) (rows : List (List String)) (j : Nat)
    (row : List String) (hj : rows[j]? = some row)
    (hshort : row.length < fields.length)
    (hprev : ∀ i r, i < j → rows[i]? = some r → fields.length ≤ r.length) :
    (ReadData fields 0 rows).2 = some (j + 1)
    ∧ (ReadData fields 0 rows).1.length = j
    ∧ ∀ d ∈ (ReadData fields 0 rows).1, d.line ≤ j := by
  have h := ReadData_short_aux rows fields 0 j row hj hshort hprev
  simpa using h

/-- Claim C6 witness: with fields id, data and a second row of one
column, ingestion stops with line 2 and exactly the first row's record
was emitted. -/
theorem C6_witness :
    (ReadData ["id", "data"] 0 [["1", "08"], ["2"]]).2 = some 2
    ∧ (ReadData ["id", "data"] 0 [["1", "08"], ["2"]]).1.length = 1 := by
  have h := C6_prop ["id", "data"] [["1", "08"], ["2"]] 1 ["2"] rfl (by decide)
    (by
      intro i r hi hr
      cases i with
      | zero =>
        simp only [List.getElem?_cons_zero, Option.some.injEq] at hr
        subst hr
        decide
      | succ n => omega)
  exact ⟨h.1, h.2.1⟩

/-! ### Claim C8 -/

/-- Pointwise sums distribute over a mapped list. -/
theorem sum_map_add_distrib (l : List Nat) (f g : Nat → Nat) :
    (l.map (fun w => f w + g w)).sum = (l.map f).sum + (l.map g).sum := by
  induction l with
  | nil => simp
  | cons a t ih => simp [ih]; omega

/-- Summing the indicator of one index over the worker range counts that
index exactly once when it is in range. -/
theorem sum_range_indicator (workerCount i : Nat) (h : i < workerCount) :
    ((List.range workerCount).map (fun w => if i = w then 1 else 0)).sum = 1 := by
  induction workerCount with
  | zero => omega
  | succ n ih =>
    rw [List.range_succ, List.map_append, List.sum_append]
    by_cases hi : i = n
    · subst hi
      have hz : ((List.range i).map (fun w => if i = w then 1 else 0)).sum = 0 := by
        apply List.sum_eq_zero
        intro x hx
        simp only [List.mem_map, List.mem_range] at hx
        rcases hx with ⟨w, hw, hxw⟩
        have : ¬i = w := by omega
        simp [this] at hxw
        omega
      simp [hz]
    · have hlt : i < n := by omega
      simp [ih hlt, hi]

/-- Each enqueued record with an in-range worker assignment lands in
exactly one worker's output sequence, so the per-worker lengths sum to
the number of records. -/
theorem sum_filterMap_lengths :
    ∀ (pairs : List (DataRec × Nat)) (workerCount : Nat),
      (∀ p ∈ pairs, p.2 < workerCount) →
      ((List.range workerCount).map
        (fun w => (pairs.filterMap (fun p => if p.2 = w then some p.1 else none)).length)).sum
        = pairs.length := by
  intro pairs
  induction pairs with
  | nil => intro workerCount h; simp
  | cons p rest ih =>
    intro workerCount h
    have hfun : (fun w => (((p :: rest).filterMap
          (fun q => if q.2 = w then some q.1 else none))).length)
        = fun w => (if p.2 = w then 1 else 0)
            + ((rest.filterMap (fun q => if q.2 = w then some q.1 else none))).length := by
      funext w
      by_cases hw : p.2 = w
      · simp [List.filterMap_cons, hw]
        omega
      · simp [List.filterMap_cons, hw]
    rw [hfun, sum_map_add_distrib,
        sum_range_indicator workerCount p.2 (h p (by simp)),
        ih workerCount (fun q hq => h q (by simp [hq]))]
    simp [Nat.add_comm]

/-- An interleaving of several sequences has as many elements as the
sequences together. -/
theorem interleaving_length {α : Type} {ls : List (List α)} {out : List α}
    (h : Interleaving ls out) : out.length = (ls.map List.length).sum := by
  induction h with
  | done ls hall =>
    simp only [List.length_nil]
    symm
    apply List.sum_eq_zero
    intro x hx
    simp only [List.mem_map] at hx
    rcases hx with ⟨l, hl, hxl⟩
    rw [hall l hl] at hxl
    simpa using hxl.symm
  | step ls w x l out hget htail ih =>
    have hset : ((ls.set w l).map List.length).sum + 1 = (ls.map List.length).sum := by
      clear htail ih
      induction ls generalizing w with
      | nil => simp at hget
      | cons a rest ihs =>
        cases w with
        | zero =>
          simp only [List.getElem?_cons_zero, Option.some.injEq] at hget
          subst hget
          simp [List.set]
          omega
        | succ ww =>
          simp only [List.getElem?_cons_succ] at hget
          have := ihs ww hget
          simp only [List.set, List.map_cons, List.sum_cons]
          omega
    simp only [List.length_cons, ih]
    omega

/-- Claim C8: for every input of N valid rows, every worker count of at
least one, every assignment of records to workers (each record dequeued
by exactly one in-range worker, FIFO from the producer), and every
race-determined interleaving of the workers' outputs at the shared sink,
the pipeline writes exactly N output lines — one serialized record per
input row — while the output order is whatever the interleaving chose. -/
theorem C8_prop (records : List DataRec) (workerCount : Nat) (sched : List Nat)
    (out : List DataRec) (_hW : 1 ≤ workerCount)
    (hlen : sched.length = records.length)
    (hsched : ∀ i ∈ sched, i < workerCount)
    (hout : Interleaving (pipelineWorkerOutputs records sched workerCount) out) :
    out.length = records.length := by
  have h1 := interleaving_length hout
  rw [pipelineWorkerOutputs, List.map_map] at h1
  have h2 : ((List.range workerCount).map
      (List.length ∘ fun w => (records.zip sched).filterMap
        (fun p => if p.2 = w then some p.1 else none))).sum
      = (records.zip sched).length := by
    have hmem : ∀ p ∈ records.zip sched, p.2 < workerCount := by
      intro p hp
      rcases p with ⟨a, b⟩
      exact hsched b (List.of_mem_zip hp).2
    exact sum_filterMap_lengths (records.zip sched) workerCount hmem
  rw [h1, h2, List.length_zip, hlen]
  omega

/-- Claim C8 witness: two records, two workers, record 1 to worker 0 and
record 2 to worker 1, with the sink observing worker 1 first: exactly two
lines come out even though the order is reversed. -/
theorem C8_witness :
    ([pipeRec2, pipeRec1] : List DataRec).length
      = ([pipeRec1, pipeRec2] : List DataRec).length := by
  refine C8_prop [pipeRec1, pipeRec2] 2 [0, 1] [pipeRec2, pipeRec1]
    (by decide) (by decide) (by decide) ?_
  have he : pipelineWorkerOutputs [pipeRec1, pipeRec2] [0, 1] 2
      = [[pipeRec1], [pipeRec2]] := by decide
  rw [he]
  refine Interleaving.step _ 1 pipeRec2 [] _ (by decide) ?_
  refine Interleaving.step _ 0 pipeRec1 [] _ (by decide) ?_
  exact Interleaving.done _ (by decide)

end ProtoToJson
